import Mathlib

/-!
Verification of the core transform of `src/flatten.py`.

The repository's only domain logic is

    def flatten(data):
        df = pd.json_normalize(
            data,
            record_path="products",
            meta=["order_id", "order_date", "total_amount",
                  ["customer", "customer_id"], ["customer", "name"],
                  ["customer", "email"], ["customer", "address"]])
        return df

so this file is a shallow embedding of `pandas.json_normalize` restricted to
the exact call made by the source: a single order dict as `data`, a one-step
`record_path`, a fixed `meta` list, default `sep="."`, `errors="raise"`,
`max_level=None`, no `record_prefix` and no `meta_prefix`.

JSON values are modelled by `JVal`; a Python dict (as produced by
`json.loads`, hence with string keys) is an association list in insertion
order.  The embedded pipeline follows `pandas/io/json/_normalize.py`:

  1. `_pull_records`: fetch `data["products"]`; `KeyError` if the key is
     absent, an empty record list if the value is `None`, `TypeError` if it
     is any other non-list value.
  2. `nested_to_record` applied to each dict record (total, no errors).
  3. the meta loop: `_pull_field(obj, path)` for each meta path, in order;
     `KeyError` on a missing key, `TypeError` when indexing a non-dict.
  4. `DataFrame(records)`: columns are the union of the record keys in
     first-appearance order; a record lacking a column gets `NaN` there.
     (Only the all-dict record case is modelled: `products` holding
     non-dict elements is outside the claims and marked `.unmodelled`.)
  5. the meta-append loop: for each meta column name in meta order,
     `ValueError` (`Conflicting metadata name`) if the name is already a
     column, otherwise the pulled value is repeated onto every row.
-/

/-- A JSON value as produced by `json.loads`.  Numbers are modelled by `Rat`
(JSON number literals are finite decimals). -/
inductive JVal where
  | null
  | bool (b : Bool)
  | num (q : Rat)
  | str (s : String)
  | arr (elems : List JVal)
  | obj (entries : List (String × JVal))
deriving Repr

/-- A Python dict with string keys, in insertion order. -/
abbrev JDict := List (String × JVal)

/-- `d[k]` as a lookup that can fail: the value at the first occurrence of
key `k` (a real Python dict has at most one). -/
def alookup {α : Type} (k : String) : List (String × α) → Option α
  | [] => none
  | (k', v) :: rest => if k' = k then some v else alookup k rest

/-- `isinstance(v, dict)`. -/
def isObj : JVal → Bool
  | .obj _ => true
  | _ => false

/-- `d.pop(k)`: remove the entry with key `k` (keys are unique in a real
dict, so removing every occurrence is the same operation). -/
def popKey (k : String) (d : JDict) : JDict :=
  d.filter (fun p => p.1 ≠ k)

/-- `d[k] = v`: replace the value in place when the key is present,
otherwise append the new entry at the end (Python dict insertion order). -/
def setKey (d : JDict) (k : String) (v : JVal) : JDict :=
  if k ∈ d.map Prod.fst then d.map (fun p => if p.1 = k then (k, v) else p)
  else d ++ [(k, v)]

/-- `d.update(m)`: `d[k] = v` for each entry of `m` in order. -/
def dictUpdate (d : JDict) (m : JDict) : JDict :=
  m.foldl (fun acc p => setKey acc p.1 p.2) d

/-- The loop body of pandas `nested_to_record` (with `sep="."`,
`max_level=None`): `todo` is the remaining part of the dict being iterated
over, `acc` is the working copy `new_d`.  At level 0 a non-dict value is
left untouched; at deeper levels it is re-keyed to `pre ++ "." ++ k`; a
dict value is popped and its recursive flattening merged in. -/
def ntr : Nat → String → JDict → JDict → JDict
  | _, _, [], acc => acc
  | lvl, pre, (k, v) :: rest, acc =>
    match v with
    | .obj inner =>
        ntr lvl pre rest
          (dictUpdate (popKey k acc)
            (ntr (lvl + 1) (if lvl = 0 then k else pre ++ "." ++ k) inner inner))
    | _ =>
        if lvl = 0 then ntr lvl pre rest acc
        else ntr lvl pre rest (setKey (popKey k acc) (pre ++ "." ++ k) v)
termination_by _ _ todo _ => sizeOf todo
decreasing_by all_goals simp_wf <;> omega

/-- pandas `nested_to_record` on one record dict. -/
def nested_to_record (d : JDict) : JDict := ntr 0 "" d d

/-- The exceptions the embedded pipeline can raise. -/
inductive Err where
  /-- `KeyError` from `_pull_records`: the `record_path` key is absent. -/
  | recordKeyMissing
  /-- `TypeError` from `_pull_records`: a non-list, non-null value. -/
  | recordNotList
  /-- `KeyError` from `_pull_field` on a meta path. -/
  | metaKeyMissing (k : String)
  /-- `TypeError`: string-indexing a non-dict while following a meta path. -/
  | metaNotIndexable (k : String)
  /-- `ValueError`: `Conflicting metadata name`. -/
  | conflictingMeta (k : String)
  /-- `products` holding a non-dict element reaches `DataFrame` on mixed
  records, which this embedding does not model. -/
  | unmodelled
deriving Repr, DecidableEq

/-- `_pull_records(order, "products")`: `KeyError` when absent, `[]` when
null, the list itself when a list, `TypeError` otherwise. -/
def pullRecords (order : JDict) : Except Err (List JVal) :=
  match alookup "products" order with
  | none => .error .recordKeyMissing
  | some (.arr xs) => .ok xs
  | some .null => .ok []
  | some _ => .error .recordNotList

/-- `_pull_field(js, spec)` with `errors="raise"`: successive string
indexing; `KeyError` on a missing key, `TypeError` on a non-dict. -/
def pullField (v : JVal) : List String → Except Err JVal
  | [] => .ok v
  | k :: rest =>
    match v with
    | .obj entries =>
      match alookup k entries with
      | some w => pullField w rest
      | none => .error (.metaKeyMissing k)
    | _ => .error (.metaNotIndexable k)

/-- The `meta` argument of the source's `json_normalize` call. -/
def metaPaths : List (List String) :=
  [["order_id"], ["order_date"], ["total_amount"],
   ["customer", "customer_id"], ["customer", "name"],
   ["customer", "email"], ["customer", "address"]]

/-- `sep.join(path)`: the column name of a meta path. -/
def metaName (p : List String) : String := String.intercalate "." p

/-- The meta-extraction loop: pull each meta path from the order in list
order, pairing the pulled value with its column name; the first failing
pull raises. -/
def pullMetas (order : JDict) : List (List String) → Except Err (List (String × JVal))
  | [] => .ok []
  | p :: rest => do
    let v ← pullField (.obj order) p
    let ms ← pullMetas order rest
    pure ((metaName p, v) :: ms)

/-- One cell of the resulting frame: a value, or `NaN` for a field the
record does not have. -/
inductive Cell where
  | val (v : JVal)
  | na
deriving Repr

/-- The union of the records' keys in first-appearance order (how a
`DataFrame` built from a list of dicts orders its columns). -/
def dedupFirst : List String → List String
  | [] => []
  | k :: rest => k :: (dedupFirst rest).filter (· ≠ k)

/-- The modelled `DataFrame`: a column list and one cell list per row, each
row aligned with the columns positionally. -/
structure Frame where
  cols : List String
  rows : List (List Cell)
deriving Repr

/-- The columns of `DataFrame(records)`. -/
def frameCols (records : List JDict) : List String :=
  dedupFirst (records.flatMap (fun r => r.map Prod.fst))

/-- One row of `DataFrame(records)`: the record's value per column, `NaN`
where the record lacks the key. -/
def rowOf (cols : List String) (record : JDict) : List Cell :=
  cols.map (fun c =>
    match alookup c record with
    | some v => Cell.val v
    | none => Cell.na)

/-- `DataFrame(records)` for all-dict records. -/
def frameOfRecords (records : List JDict) : Frame :=
  { cols := frameCols records
    rows := records.map (rowOf (frameCols records)) }

/-- `nested_to_record` over the record list fused with the all-dict
restriction of the modelled `DataFrame` constructor: each dict record is
flattened; a non-dict record leaves the modelled fragment. -/
def flatRecords : List JVal → Except Err (List JDict)
  | [] => .ok []
  | .obj e :: rest => do
    let es ← flatRecords rest
    pure (nested_to_record e :: es)
  | _ :: _ => .error .unmodelled

/-- The meta-append loop: for each meta column in order, raise
`Conflicting metadata name` when the column already exists, otherwise
append the column with the single pulled value repeated onto every row
(`values.repeat(lengths)` with one length). -/
def addMetaCols (fr : Frame) : List (String × JVal) → Except Err Frame
  | [] => .ok fr
  | (k, v) :: rest =>
    if k ∈ fr.cols then .error (.conflictingMeta k)
    else addMetaCols
      { cols := fr.cols ++ [k]
        rows := fr.rows.map (fun r => r ++ [Cell.val v]) } rest

/-- `flatten(order)` of `src/flatten.py`: the `json_normalize` call on one
order dict, in the source's evaluation order (records pulled first, then
the meta loop, then the frame build, then the meta append). -/
def flatten (order : JDict) : Except Err Frame := do
  let recs ← pullRecords order
  let ms ← pullMetas order metaPaths
  let entries ← flatRecords recs
  addMetaCols (frameOfRecords entries) ms

/-- The scenario input from the spec: order `O1` with two products `X`
and `Y`. -/
def exampleOrder : JDict :=
  [("order_id", .str "O1"), ("order_date", .str "2024-01-01"),
   ("total_amount", .num 19.98),
   ("customer", .obj [("customer_id", .str "C1"), ("name", .str "A"),
                      ("email", .str "a@x.com"), ("address", .str "1 Rd")]),
   ("products", .arr [.obj [("sku", .str "X"), ("qty", .num 2)],
                      .obj [("sku", .str "Y"), ("qty", .num 1)]])]

/-- The tabular output the spec's scenario expects for `exampleOrder`: one
row per product, each carrying the meta values. -/
def exampleFrame : Frame :=
  { cols := ["sku", "qty", "order_id", "order_date", "total_amount",
             "customer.customer_id", "customer.name", "customer.email",
             "customer.address"]
    rows := [[Cell.val (JVal.str "X"), Cell.val (JVal.num 2),
              Cell.val (JVal.str "O1"), Cell.val (JVal.str "2024-01-01"),
              Cell.val (JVal.num 19.98), Cell.val (JVal.str "C1"),
              Cell.val (JVal.str "A"), Cell.val (JVal.str "a@x.com"),
              Cell.val (JVal.str "1 Rd")],
             [Cell.val (JVal.str "Y"), Cell.val (JVal.num 1),
              Cell.val (JVal.str "O1"), Cell.val (JVal.str "2024-01-01"),
              Cell.val (JVal.num 19.98), Cell.val (JVal.str "C1"),
              Cell.val (JVal.str "A"), Cell.val (JVal.str "a@x.com"),
              Cell.val (JVal.str "1 Rd")]] }

/-! ### Basic lemmas about the embedded primitives -/

theorem bind_ok_iff {α β : Type} {x : Except Err α} {f : α → Except Err β} {b : β} :
    (x >>= f) = Except.ok b ↔ ∃ a, x = Except.ok a ∧ f a = Except.ok b := by
  cases x <;> simp [Bind.bind, Except.bind]

theorem bind_error_iff {α β : Type} {x : Except Err α} {f : α → Except Err β} {e : Err} :
    (x >>= f) = Except.error e ↔
      (x = Except.error e ∨ ∃ a, x = Except.ok a ∧ f a = Except.error e) := by
  cases x <;> simp [Bind.bind, Except.bind]

theorem alookup_append_left {α : Type} {k : String} {xs : List (String × α)} {v : α}
    (h : alookup k xs = some v) (ys : List (String × α)) :
    alookup k (xs ++ ys) = some v := by
  induction xs with
  | nil => simp [alookup] at h
  | cons p rest ih =>
    obtain ⟨k', v'⟩ := p
    simp only [List.cons_append, alookup] at h ⊢
    by_cases hk : k' = k
    · rw [if_pos hk] at h ⊢; exact h
    · rw [if_neg hk] at h ⊢; exact ih h

theorem alookup_append_right {α : Type} {k : String} {xs : List (String × α)}
    (h : alookup k xs = none) (ys : List (String × α)) :
    alookup k (xs ++ ys) = alookup k ys := by
  induction xs with
  | nil => simp
  | cons p rest ih =>
    obtain ⟨k', v'⟩ := p
    simp only [List.cons_append, alookup] at h ⊢
    by_cases hk : k' = k
    · rw [if_pos hk] at h; simp at h
    · rw [if_neg hk] at h ⊢; exact ih h

theorem alookup_zip_none {α : Type} {c : String} {cols : List String}
    (h : c ∉ cols) (ys : List α) :
    alookup c (cols.zip ys) = none := by
  induction cols generalizing ys with
  | nil => simp [alookup]
  | cons k rest ih =>
    cases ys with
    | nil => simp [alookup]
    | cons y ys' =>
      simp only [List.mem_cons, not_or] at h
      have hne : k ≠ c := fun hk => h.1 hk.symm
      simp only [List.zip_cons_cons, alookup, if_neg hne]
      exact ih h.2 ys'

theorem alookup_zip_map_self {α : Type} {c : String} {cols : List String}
    (g : String → α) (h : c ∈ cols) :
    alookup c (cols.zip (cols.map g)) = some (g c) := by
  induction cols with
  | nil => simp at h
  | cons k rest ih =>
    by_cases hk : k = c
    · subst hk
      simp [alookup]
    · rcases List.mem_cons.mp h with h' | h'
      · exact absurd h'.symm hk
      · simpa [alookup, hk] using ih h'

theorem mem_nodup_alookup {α : Type} {k : String} {v : α} {l : List (String × α)}
    (hnd : (l.map Prod.fst).Nodup) (hm : (k, v) ∈ l) :
    alookup k l = some v := by
  induction l with
  | nil => simp at hm
  | cons p rest ih =>
    simp only [List.map_cons, List.nodup_cons] at hnd
    rcases List.mem_cons.mp hm with h | h
    · simp [alookup, ← h]
    · have hne : p.1 ≠ k := by
        intro hkk
        exact hnd.1 (hkk ▸ List.mem_map_of_mem Prod.fst h)
      simp only [alookup, hne, if_neg, ite_false]
      exact ih hnd.2 h

theorem alookup_map_pair {α β : Type} {k : String} {v : α} {ms : List (String × α)}
    (g : α → β) (hm : (k, v) ∈ ms) (hnd : (ms.map Prod.fst).Nodup) :
    alookup k (ms.map (fun m => (m.1, g m.2))) = some (g v) := by
  have hmem : (k, g v) ∈ ms.map (fun m => (m.1, g m.2)) := by
    exact List.mem_map.mpr ⟨(k, v), hm, rfl⟩
  have hkeys : ((ms.map (fun m => (m.1, g m.2))).map Prod.fst).Nodup := by
    simpa [List.map_map, Function.comp] using hnd
  exact mem_nodup_alookup hkeys hmem

theorem mem_dedupFirst {a : String} {l : List String} :
    a ∈ dedupFirst l ↔ a ∈ l := by
  induction l with
  | nil => simp [dedupFirst]
  | cons k rest ih =>
    by_cases hk : a = k
    · subst hk; simp [dedupFirst]
    · simp only [dedupFirst, List.mem_cons, hk, false_or, List.mem_filter,
        decide_eq_true_eq, ih]
      constructor
      · exact fun h => h.1
      · exact fun h => ⟨h, by simpa using hk⟩

theorem rowOf_length {cols : List String} {e : JDict} :
    (rowOf cols e).length = cols.length := by
  simp [rowOf]

theorem keys_setKey_super {k k' : String} {v : JVal} {d : JDict}
    (h : k ∈ d.map Prod.fst) : k ∈ (setKey d k' v).map Prod.fst := by
  unfold setKey
  split
  · rcases List.mem_map.mp h with ⟨p, hp, hpk⟩
    refine List.mem_map.mpr ?_
    by_cases hk : p.1 = k'
    · exact ⟨(k', v), List.mem_map.mpr ⟨p, hp, by simp [hk]⟩, by simp [← hpk, hk]⟩
    · exact ⟨p, List.mem_map.mpr ⟨p, hp, by simp [hk]⟩, hpk⟩
  · exact List.mem_map.mpr
      (by rcases List.mem_map.mp h with ⟨p, hp, hpk⟩
          exact ⟨p, List.mem_append_left _ hp, hpk⟩)

theorem keys_dictUpdate_super {k : String} {d m : JDict}
    (h : k ∈ d.map Prod.fst) : k ∈ (dictUpdate d m).map Prod.fst := by
  induction m generalizing d with
  | nil => exact h
  | cons p rest ih =>
    simp only [dictUpdate, List.foldl_cons] at ih ⊢
    exact ih (keys_setKey_super h)

theorem keys_popKey {k k' : String} {d : JDict} (hne : k ≠ k')
    (h : k ∈ d.map Prod.fst) : k ∈ (popKey k' d).map Prod.fst := by
  rcases List.mem_map.mp h with ⟨p, hp, hpk⟩
  refine List.mem_map.mpr ⟨p, ?_, hpk⟩
  refine List.mem_filter.mpr ⟨hp, ?_⟩
  simp only [decide_eq_true_eq]
  exact fun hcontra => hne (hpk ▸ hcontra)

/-- At level 0, an entry whose value is not a dict is never popped, so its
key survives `nested_to_record` as long as no other entry shares it. -/
theorem ntr_zero_keeps_key {k : String} {pre : String} (todo acc : JDict)
    (hacc : k ∈ acc.map Prod.fst)
    (htodo : ∀ v', (k, v') ∈ todo → isObj v' = false) :
    k ∈ (ntr 0 pre todo acc).map Prod.fst := by
  induction todo generalizing acc with
  | nil => simpa [ntr] using hacc
  | cons p rest ih =>
    obtain ⟨k', v'⟩ := p
    match hv : v' with
    | .obj inner =>
      have hne : k ≠ k' := by
        intro hk
        have := htodo (.obj inner) (by simp [hk])
        simp [isObj] at this
      simp only [ntr]
      exact ih _ (keys_dictUpdate_super (keys_popKey hne hacc))
        (fun w hw => htodo w (List.mem_cons_of_mem _ hw))
    | .null | .bool _ | .num _ | .str _ | .arr _ =>
      simp only [ntr, if_pos rfl]
      exact ih _ hacc (fun w hw => htodo w (List.mem_cons_of_mem _ hw))

/-- A key of a record that holds a non-dict value is still a key of the
flattened record. -/
theorem nested_to_record_keeps_key {k : String} {v : JVal} {e : JDict}
    (hk : alookup k e = some v) (hv : isObj v = false)
    (hnd : (e.map Prod.fst).Nodup) :
    k ∈ (nested_to_record e).map Prod.fst := by
  have hmemk : k ∈ e.map Prod.fst := by
    induction e with
    | nil => simp [alookup] at hk
    | cons p rest ih =>
      obtain ⟨k', w⟩ := p
      simp only [alookup] at hk
      by_cases hkk : k' = k
      · simp [hkk]
      · rw [if_neg hkk] at hk
        simp only [List.map_cons, List.nodup_cons] at hnd
        exact List.mem_cons_of_mem _ (ih hk hnd.2)
  refine ntr_zero_keeps_key e e hmemk ?_
  intro v' hv'
  have : alookup k e = some v' := by
    refine mem_nodup_alookup hnd hv'
  rw [hk] at this
  cases this
  exact hv

theorem pullMetas_ok_names {order : JDict} {ps : List (List String)}
    {ms : List (String × JVal)} (h : pullMetas order ps = Except.ok ms) :
    ms.map Prod.fst = ps.map metaName := by
  induction ps generalizing ms with
  | nil =>
    simp only [pullMetas] at h
    cases h
    simp
  | cons p rest ih =>
    simp only [pullMetas] at h
    rcases bind_ok_iff.mp h with ⟨v, hv, h2⟩
    rcases bind_ok_iff.mp h2 with ⟨ms', hms', h3⟩
    simp only [pure, Except.pure, Except.ok.injEq] at h3
    subst h3
    simp [ih hms']

theorem pullMetas_mem {order : JDict} {ps : List (List String)}
    {ms : List (String × JVal)} {p : List String}
    (h : pullMetas order ps = Except.ok ms) (hp : p ∈ ps) :
    ∃ v, pullField (JVal.obj order) p = Except.ok v ∧ (metaName p, v) ∈ ms := by
  induction ps generalizing ms with
  | nil => simp at hp
  | cons q rest ih =>
    simp only [pullMetas] at h
    rcases bind_ok_iff.mp h with ⟨v, hv, h2⟩
    rcases bind_ok_iff.mp h2 with ⟨ms', hms', h3⟩
    simp only [pure, Except.pure, Except.ok.injEq] at h3
    subst h3
    rcases List.mem_cons.mp hp with hq | hq
    · subst hq
      exact ⟨v, hv, List.mem_cons_self _ _⟩
    · rcases ih hms' hq with ⟨w, hw, hmem⟩
      exact ⟨w, hw, List.mem_cons_of_mem _ hmem⟩

theorem pullMetas_error_of_field {order : JDict} {ps : List (List String)}
    {p : List String} {e : Err}
    (hp : p ∈ ps) (hf : pullField (JVal.obj order) p = Except.error e) :
    ∃ e', pullMetas order ps = Except.error e' := by
  induction ps with
  | nil => simp at hp
  | cons q rest ih =>
    rcases List.mem_cons.mp hp with hq | hq
    · subst hq
      exact ⟨e, by simp [pullMetas, hf, Bind.bind, Except.bind]⟩
    · cases hv : pullField (JVal.obj order) q with
      | error e'' => exact ⟨e'', by simp [pullMetas, hv, Bind.bind, Except.bind]⟩
      | ok v =>
        rcases ih hq with ⟨e', he'⟩
        exact ⟨e', by simp [pullMetas, hv, he', Bind.bind, Except.bind]⟩

theorem flatRecords_map_obj (objs : List JDict) :
    flatRecords (objs.map JVal.obj) = Except.ok (objs.map nested_to_record) := by
  induction objs with
  | nil => simp [flatRecords]
  | cons e rest ih =>
    simp [flatRecords, ih, Bind.bind, Except.bind, pure, Except.pure]

theorem flatRecords_ok_inv {recs : List JVal} {entries : List JDict}
    (h : flatRecords recs = Except.ok entries) :
    ∃ objs : List JDict,
      recs = objs.map JVal.obj ∧ entries = objs.map nested_to_record := by
  induction recs generalizing entries with
  | nil =>
    simp only [flatRecords] at h
    cases h
    exact ⟨[], by simp⟩
  | cons r rest ih =>
    match r with
    | .obj e =>
      simp only [flatRecords] at h
      rcases bind_ok_iff.mp h with ⟨es, hes, h2⟩
      simp only [pure, Except.pure, Except.ok.injEq] at h2
      subst h2
      rcases ih hes with ⟨objs, hrec, hent⟩
      exact ⟨e :: objs, by simp [hrec], by simp [hent]⟩
    | .null | .bool _ | .num _ | .str _ | .arr _ => simp [flatRecords] at h

theorem mem_frameCols {c : String} {records : List JDict} :
    c ∈ frameCols records ↔ ∃ r ∈ records, c ∈ r.map Prod.fst := by
  simp [frameCols, mem_dedupFirst, List.mem_flatMap]

theorem addMetaCols_ok {ms : List (String × JVal)} {fr : Frame}
    (h1 : ∀ m ∈ ms, m.1 ∉ fr.cols) (h2 : (ms.map Prod.fst).Nodup) :
    addMetaCols fr ms = Except.ok
      { cols := fr.cols ++ ms.map Prod.fst
        rows := fr.rows.map (fun r => r ++ ms.map (fun m => Cell.val m.2)) } := by
  induction ms generalizing fr with
  | nil => simp [addMetaCols]
  | cons m rest ih =>
    obtain ⟨k, v⟩ := m
    have hk : k ∉ fr.cols := h1 (k, v) (List.mem_cons_self _ _)
    simp only [List.map_cons, List.nodup_cons] at h2
    simp only [addMetaCols, if_neg hk]
    rw [ih ?_ h2.2]
    · congr 1
      simp only [Frame.mk.injEq]
      constructor
      · simp [List.append_assoc]
      · simp [List.map_map, Function.comp]
    · intro m' hm'
      simp only [List.mem_append, List.mem_singleton, not_or]
      refine ⟨h1 m' (List.mem_cons_of_mem _ hm'), ?_⟩
      intro hcontra
      exact h2.1 (hcontra ▸ List.mem_map_of_mem Prod.fst hm')

theorem addMetaCols_ok_inv {ms : List (String × JVal)} {fr fr' : Frame}
    (h : addMetaCols fr ms = Except.ok fr') :
    (∀ m ∈ ms, m.1 ∉ fr.cols) ∧
      fr' = { cols := fr.cols ++ ms.map Prod.fst
              rows := fr.rows.map (fun r => r ++ ms.map (fun m => Cell.val m.2)) } := by
  induction ms generalizing fr with
  | nil =>
    simp only [addMetaCols] at h
    cases h
    exact ⟨by simp, by simp⟩
  | cons m rest ih =>
    obtain ⟨k, v⟩ := m
    simp only [addMetaCols] at h
    split at h
    · cases h
    · rcases ih h with ⟨hrest, hfr'⟩
      constructor
      · intro m' hm'
        rcases List.mem_cons.mp hm' with hm | hm
        · subst hm
          assumption
        · have := hrest m' hm
          simp only [List.mem_append, List.mem_singleton, not_or] at this
          exact this.1
      · rw [hfr']
        simp only [Frame.mk.injEq]
        constructor
        · simp [List.append_assoc]
        · simp [List.map_map, Function.comp]

theorem addMetaCols_error_of_mem {ms : List (String × JVal)} {fr : Frame}
    {m : String × JVal} (hm : m ∈ ms) (hc : m.1 ∈ fr.cols) :
    ∃ k, addMetaCols fr ms = Except.error (Err.conflictingMeta k) := by
  induction ms generalizing fr with
  | nil => simp at hm
  | cons p rest ih =>
    obtain ⟨k, v⟩ := p
    by_cases hk : k ∈ fr.cols
    · exact ⟨k, by simp [addMetaCols, if_pos hk]⟩
    · simp only [addMetaCols, if_neg hk]
      rcases List.mem_cons.mp hm with h | h
      · subst h
        exact absurd hc hk
      · refine ih h ?_
        simp only [List.mem_append, List.mem_singleton]
        exact Or.inl hc

theorem pullMetas_metaPaths_nodup {order : JDict} {ms : List (String × JVal)}
    (h : pullMetas order metaPaths = Except.ok ms) : (ms.map Prod.fst).Nodup := by
  rw [pullMetas_ok_names h]
  decide

/-- The shape of every successful run: the records list is pulled and each
record flattened, the meta values are pulled, the frame is built with the
union of the flattened record keys as columns, and the meta columns are
appended with the pulled value on every row. -/
theorem flatten_ok_struct {order : JDict} {objs : List JDict}
    {ms : List (String × JVal)}
    (hrec : pullRecords order = Except.ok (objs.map JVal.obj))
    (hms : pullMetas order metaPaths = Except.ok ms)
    (hnc : ∀ m ∈ ms, m.1 ∉ frameCols (objs.map nested_to_record)) :
    flatten order = Except.ok
      { cols := frameCols (objs.map nested_to_record) ++ ms.map Prod.fst
        rows := (objs.map nested_to_record).map
          (fun e => rowOf (frameCols (objs.map nested_to_record)) e ++
            ms.map (fun m => Cell.val m.2)) } := by
  have hnodup := pullMetas_metaPaths_nodup hms
  have hadd := @addMetaCols_ok ms (frameOfRecords (objs.map nested_to_record))
    (by simpa [frameOfRecords] using hnc) hnodup
  simp only [flatten, hrec, hms, flatRecords_map_obj, Bind.bind, Except.bind]
  rw [hadd]
  simp [frameOfRecords, List.map_map, Function.comp]

/-- Inversion of a successful run into the shape of `flatten_ok_struct`. -/
theorem flatten_ok_inv {order : JDict} {fr : Frame}
    (h : flatten order = Except.ok fr) :
    ∃ (objs : List JDict) (ms : List (String × JVal)),
      pullRecords order = Except.ok (objs.map JVal.obj) ∧
      pullMetas order metaPaths = Except.ok ms ∧
      (∀ m ∈ ms, m.1 ∉ frameCols (objs.map nested_to_record)) ∧
      fr = { cols := frameCols (objs.map nested_to_record) ++ ms.map Prod.fst
             rows := (objs.map nested_to_record).map
               (fun e => rowOf (frameCols (objs.map nested_to_record)) e ++
                 ms.map (fun m => Cell.val m.2)) } := by
  simp only [flatten] at h
  rcases bind_ok_iff.mp h with ⟨recs, hrecs, h2⟩
  rcases bind_ok_iff.mp h2 with ⟨ms, hms, h3⟩
  rcases bind_ok_iff.mp h3 with ⟨entries, hent, h4⟩
  rcases flatRecords_ok_inv hent with ⟨objs, hobj, hent2⟩
  subst hobj
  subst hent2
  rcases addMetaCols_ok_inv h4 with ⟨hnc, hfr⟩
  refine ⟨objs, ms, hrecs, hms, by simpa [frameOfRecords] using hnc, ?_⟩
  rw [hfr]
  simp [frameOfRecords, List.map_map, Function.comp]

/-- When every value of `todo` is a non-dict, the level-0 loop of
`nested_to_record` never touches the working copy. -/
theorem ntr_zero_all_flat {pre : String} (todo acc : JDict)
    (h : ∀ p ∈ todo, isObj p.2 = false) : ntr 0 pre todo acc = acc := by
  induction todo with
  | nil => simp [ntr]
  | cons p rest ih =>
    obtain ⟨k, v⟩ := p
    match v with
    | .obj inner =>
      have := h (k, .obj inner) (List.mem_cons_self _ _)
      simp [isObj] at this
    | .null | .bool _ | .num _ | .str _ | .arr _ =>
      simp only [ntr, if_pos rfl]
      exact ih (fun q hq => h q (List.mem_cons_of_mem _ hq))

/-- `nested_to_record` is the identity on a dict with no nested dicts. -/
theorem nested_to_record_flat {d : JDict} (h : ∀ p ∈ d, isObj p.2 = false) :
    nested_to_record d = d := ntr_zero_all_flat d d h

theorem map_nested_to_record_flat {objs : List JDict}
    (h : ∀ e ∈ objs, ∀ p ∈ e, isObj p.2 = false) :
    objs.map nested_to_record = objs := by
  induction objs with
  | nil => simp
  | cons e rest ih =>
    simp only [List.map_cons]
    rw [nested_to_record_flat (h e (List.mem_cons_self _ _)),
      ih (fun e' he' => h e' (List.mem_cons_of_mem _ he'))]

/-- Evaluation of the embedded `flatten` on the spec's scenario input. -/
theorem flatten_exampleOrder_eval : flatten exampleOrder = Except.ok exampleFrame := by
  have h := @flatten_ok_struct exampleOrder
    [[("sku", .str "X"), ("qty", .num 2)],
     [("sku", .str "Y"), ("qty", .num 1)]]
    [("order_id", .str "O1"), ("order_date", .str "2024-01-01"),
     ("total_amount", .num 19.98), ("customer.customer_id", .str "C1"),
     ("customer.name", .str "A"), ("customer.email", .str "a@x.com"),
     ("customer.address", .str "1 Rd")]
    rfl rfl ?hnc
  case hnc =>
    rw [map_nested_to_record_flat (by decide)]
    decide
  rw [map_nested_to_record_flat (by decide)] at h
  exact h

/-! ### The claims -/

/-- Claim C7: on the spec's concrete scenario input, `flatten` returns
exactly two rows, the first with sku `X` and qty `2`, the second with sku
`Y` and qty `1`, both carrying the meta values `O1`, `2024-01-01`, `19.98`
and the `customer.`-qualified customer fields `C1`, `A`, `a@x.com`,
`1 Rd`. -/
theorem flatten_scenario_two_rows :
    flatten exampleOrder = Except.ok exampleFrame :=
  flatten_exampleOrder_eval

/-- Claim C8: `flatten` is a pure deterministic function: two calls on
identical inputs yield identical outputs; the result depends on nothing
but the input order (and, the embedding being functional, the input is
never mutated). -/
theorem flatten_deterministic (o₁ o₂ : JDict) (h : o₁ = o₂) :
    flatten o₁ = flatten o₂ := by
  rw [h]

/-- Witness for C8 at the scenario input. -/
theorem flatten_deterministic_witness :
    flatten exampleOrder = flatten exampleOrder :=
  flatten_deterministic exampleOrder exampleOrder rfl

/-- Claim C3: an order with no `products` key makes `flatten` raise the
malformed-input `KeyError` instead of returning rows. -/
theorem flatten_missing_products_errors {order : JDict}
    (h : alookup "products" order = none) :
    flatten order = Except.error Err.recordKeyMissing := by
  simp [flatten, pullRecords, h, Bind.bind, Except.bind]

/-- Witness for C3: an order carrying only `order_id`. -/
theorem flatten_missing_products_errors_witness :
    flatten [("order_id", JVal.str "O1")] = Except.error Err.recordKeyMissing :=
  @flatten_missing_products_errors [("order_id", JVal.str "O1")] rfl

/-- Claim C1 fails as stated: `{"products": []}` holds a list of zero item
mappings, yet `flatten` raises a `KeyError` instead of returning an empty
row sequence, because the meta fields are pulled even when no records
exist. -/
theorem flatten_empty_products_counterexample :
    flatten [("products", JVal.arr [])] =
      Except.error (Err.metaKeyMissing "order_id") := rfl

/-- Claim C1 (amended): for every order whose `products` key holds a list
of N item mappings, whose meta fields are all present (every meta path
pulls successfully), and whose flattened item keys avoid the meta column
names, `flatten` returns exactly N rows, one per item in input order; in
particular N = 0 yields an empty row sequence with no error. -/
theorem flatten_rowcount_of_wellformed {order : JDict} {objs : List JDict}
    {ms : List (String × JVal)} {N : Nat}
    (hrec : pullRecords order = Except.ok (objs.map JVal.obj))
    (hN : objs.length = N)
    (hms : pullMetas order metaPaths = Except.ok ms)
    (hnc : ∀ m ∈ ms, m.1 ∉ frameCols (objs.map nested_to_record)) :
    ∃ fr, flatten order = Except.ok fr ∧ fr.rows.length = N ∧
      fr.rows = objs.map (fun e =>
        rowOf (frameCols (objs.map nested_to_record)) (nested_to_record e) ++
          ms.map (fun m => Cell.val m.2)) := by
  refine ⟨_, flatten_ok_struct hrec hms hnc, ?_, ?_⟩
  · simp [hN]
  · simp [List.map_map, Function.comp]

/-- Witness for C1 (amended) at the scenario input: two items give two
rows. -/
theorem flatten_rowcount_of_wellformed_witness :
    ∃ fr, flatten exampleOrder = Except.ok fr ∧ fr.rows.length = 2 ∧
      fr.rows = [[("sku", JVal.str "X"), ("qty", JVal.num 2)],
                 [("sku", JVal.str "Y"), ("qty", JVal.num 1)]].map (fun e =>
        rowOf (frameCols
            ([[("sku", JVal.str "X"), ("qty", JVal.num 2)],
              [("sku", JVal.str "Y"), ("qty", JVal.num 1)]].map nested_to_record))
          (nested_to_record e) ++
          [("order_id", JVal.str "O1"), ("order_date", JVal.str "2024-01-01"),
           ("total_amount", JVal.num 19.98),
           ("customer.customer_id", JVal.str "C1"),
           ("customer.name", JVal.str "A"),
           ("customer.email", JVal.str "a@x.com"),
           ("customer.address", JVal.str "1 Rd")].map
            (fun m => Cell.val m.2)) :=
  @flatten_rowcount_of_wellformed exampleOrder
    [[("sku", JVal.str "X"), ("qty", JVal.num 2)],
     [("sku", JVal.str "Y"), ("qty", JVal.num 1)]]
    [("order_id", JVal.str "O1"), ("order_date", JVal.str "2024-01-01"),
     ("total_amount", JVal.num 19.98),
     ("customer.customer_id", JVal.str "C1"),
     ("customer.name", JVal.str "A"),
     ("customer.email", JVal.str "a@x.com"),
     ("customer.address", JVal.str "1 Rd")]
    2 rfl rfl rfl
    (by rw [map_nested_to_record_flat (by decide)]; decide)

/-- Claim C9 fails as stated: on `{"products": null}` alone, `flatten`
raises a `KeyError` for the missing meta field `order_id` instead of
returning an empty row sequence. -/
theorem flatten_null_products_counterexample :
    flatten [("products", JVal.null)] =
      Except.error (Err.metaKeyMissing "order_id") := rfl

/-- Claim C9 (amended): for every order in which `products` is present
with value null and all meta paths pull successfully, `flatten` returns an
empty row sequence rather than signalling malformed input. -/
theorem flatten_null_products_empty {order : JDict} {ms : List (String × JVal)}
    (hp : alookup "products" order = some JVal.null)
    (hms : pullMetas order metaPaths = Except.ok ms) :
    ∃ fr, flatten order = Except.ok fr ∧ fr.rows = [] := by
  have hrec : pullRecords order = Except.ok (([] : List JDict).map JVal.obj) := by
    simp [pullRecords, hp]
  refine ⟨_, @flatten_ok_struct order [] ms hrec hms ?_, ?_⟩
  · simp [frameCols, dedupFirst]
  · simp

/-- Witness for C9 (amended): the scenario order with `products` nulled. -/
theorem flatten_null_products_empty_witness :
    ∃ fr, flatten
      [("order_id", JVal.str "O1"), ("order_date", JVal.str "2024-01-01"),
       ("total_amount", JVal.num 19.98),
       ("customer", JVal.obj [("customer_id", JVal.str "C1"),
                              ("name", JVal.str "A"),
                              ("email", JVal.str "a@x.com"),
                              ("address", JVal.str "1 Rd")]),
       ("products", JVal.null)] = Except.ok fr ∧ fr.rows = [] :=
  @flatten_null_products_empty
    [("order_id", JVal.str "O1"), ("order_date", JVal.str "2024-01-01"),
     ("total_amount", JVal.num 19.98),
     ("customer", JVal.obj [("customer_id", JVal.str "C1"),
                            ("name", JVal.str "A"),
                            ("email", JVal.str "a@x.com"),
                            ("address", JVal.str "1 Rd")]),
     ("products", JVal.null)]
    [("order_id", JVal.str "O1"), ("order_date", JVal.str "2024-01-01"),
     ("total_amount", JVal.num 19.98),
     ("customer.customer_id", JVal.str "C1"),
     ("customer.name", JVal.str "A"),
     ("customer.email", JVal.str "a@x.com"),
     ("customer.address", JVal.str "1 Rd")]
    rfl rfl

/-- Claim C6 fails as stated for the null value: `products: null` is not
list-typed, yet `flatten` succeeds with an empty row sequence on an
otherwise complete order. -/
theorem flatten_nonlist_products_counterexample :
    flatten
      [("order_id", JVal.str "O1"), ("order_date", JVal.str "2024-01-01"),
       ("total_amount", JVal.num 19.98),
       ("customer", JVal.obj [("customer_id", JVal.str "C1"),
                              ("name", JVal.str "A"),
                              ("email", JVal.str "a@x.com"),
                              ("address", JVal.str "1 Rd")]),
       ("products", JVal.null)] =
      Except.ok
        { cols := ["order_id", "order_date", "total_amount",
                   "customer.customer_id", "customer.name",
                   "customer.email", "customer.address"]
          rows := [] } := rfl

/-- Claim C6 (amended): for every order whose `products` key is present
with a value that is neither a list nor null (a mapping, string, number or
boolean), `flatten` raises the malformed-input `TypeError`. -/
theorem flatten_nonlist_products_errors {order : JDict} {v : JVal}
    (hp : alookup "products" order = some v)
    (harr : ∀ xs, v ≠ JVal.arr xs) (hnull : v ≠ JVal.null) :
    flatten order = Except.error Err.recordNotList := by
  have hpr : pullRecords order = Except.error Err.recordNotList := by
    unfold pullRecords
    rw [hp]
    match v with
    | .null => exact absurd rfl hnull
    | .arr xs => exact absurd rfl (harr xs)
    | .bool _ | .num _ | .str _ | .obj _ => rfl
  simp [flatten, hpr, Bind.bind, Except.bind]

/-- Witness for C6 (amended): `products` holding the number 5. -/
theorem flatten_nonlist_products_errors_witness :
    flatten [("products", JVal.num 5)] = Except.error Err.recordNotList :=
  @flatten_nonlist_products_errors [("products", JVal.num 5)] (JVal.num 5) rfl
    (fun _ h => JVal.noConfusion h) (fun h => JVal.noConfusion h)

/-- Claim C5: an order with a non-empty `products` list that is missing
one of the required meta fields (`order_id`, `order_date`, `total_amount`,
or one of the customer sub-fields) makes `flatten` raise a malformed-input
error rather than produce rows. -/
theorem flatten_missing_meta_errors {order : JDict} {recs : List JVal}
    (hrec : alookup "products" order = some (JVal.arr recs))
    (hne : recs ≠ [])
    (hmiss :
      alookup "order_id" order = none ∨
      alookup "order_date" order = none ∨
      alookup "total_amount" order = none ∨
      (∃ c, alookup "customer" order = some (JVal.obj c) ∧
        (alookup "customer_id" c = none ∨ alookup "name" c = none ∨
         alookup "email" c = none ∨ alookup "address" c = none))) :
    ∃ e, flatten order = Except.error e := by
  have key : ∃ p ∈ metaPaths, ∃ er, pullField (JVal.obj order) p = Except.error er := by
    rcases hmiss with h | h | h | ⟨c, hc, hsub⟩
    · exact ⟨["order_id"], by simp [metaPaths], Err.metaKeyMissing "order_id",
        by simp [pullField, h]⟩
    · exact ⟨["order_date"], by simp [metaPaths], Err.metaKeyMissing "order_date",
        by simp [pullField, h]⟩
    · exact ⟨["total_amount"], by simp [metaPaths],
        Err.metaKeyMissing "total_amount", by simp [pullField, h]⟩
    · rcases hsub with h | h | h | h
      · exact ⟨["customer", "customer_id"], by simp [metaPaths],
          Err.metaKeyMissing "customer_id", by simp [pullField, hc, h]⟩
      · exact ⟨["customer", "name"], by simp [metaPaths],
          Err.metaKeyMissing "name", by simp [pullField, hc, h]⟩
      · exact ⟨["customer", "email"], by simp [metaPaths],
          Err.metaKeyMissing "email", by simp [pullField, hc, h]⟩
      · exact ⟨["customer", "address"], by simp [metaPaths],
          Err.metaKeyMissing "address", by simp [pullField, hc, h]⟩
  rcases key with ⟨p, hp, er, her⟩
  rcases pullMetas_error_of_field hp her with ⟨e', he'⟩
  exact ⟨e', by simp [flatten, pullRecords, hrec, he', Bind.bind, Except.bind]⟩

/-- Witness for C5: a one-item order missing `order_date`. -/
theorem flatten_missing_meta_errors_witness :
    ∃ e, flatten [("order_id", JVal.str "O1"),
                  ("products", JVal.arr [JVal.obj []])] = Except.error e :=
  @flatten_missing_meta_errors
    [("order_id", JVal.str "O1"), ("products", JVal.arr [JVal.obj []])]
    [JVal.obj []] rfl (by simp) (Or.inr (Or.inl rfl))

/-- Claim C2: on every order on which `flatten` succeeds, each of the
seven meta paths yields a column (named by joining the path with a dot)
present in the output, whose value in every row is the one pulled from the
source order — identical across rows. -/
theorem flatten_meta_columns_constant {order : JDict} {fr : Frame}
    (h : flatten order = Except.ok fr) :
    ∀ p ∈ metaPaths, ∃ v, pullField (JVal.obj order) p = Except.ok v ∧
      metaName p ∈ fr.cols ∧
      ∀ row ∈ fr.rows, alookup (metaName p) (fr.cols.zip row) = some (Cell.val v) := by
  rcases flatten_ok_inv h with ⟨objs, ms, hrec, hms, hnc, hfr⟩
  intro p hp
  rcases pullMetas_mem hms hp with ⟨v, hv, hmem⟩
  refine ⟨v, hv, ?_, ?_⟩
  · rw [hfr]
    exact List.mem_append_right _ (List.mem_map_of_mem Prod.fst hmem)
  · intro row hrow
    rw [hfr] at hrow
    simp only [List.mem_map] at hrow
    rcases hrow with ⟨e, he, hroweq⟩
    subst hroweq
    rw [hfr]
    have hlen : (frameCols (objs.map nested_to_record)).length =
        (rowOf (frameCols (objs.map nested_to_record)) e).length := by
      rw [rowOf_length]
    rw [List.zip_append hlen]
    have hnotC : metaName p ∉ frameCols (objs.map nested_to_record) :=
      hnc (metaName p, v) hmem
    rw [alookup_append_right (alookup_zip_none hnotC _)]
    rw [List.zip_map']
    exact alookup_map_pair (fun w => Cell.val w) hmem (pullMetas_metaPaths_nodup hms)

/-- Witness for C2 at the scenario input: the `customer.customer_id`
column holds `C1` in every row. -/
theorem flatten_meta_columns_constant_witness :
    ∃ v, pullField (JVal.obj exampleOrder) ["customer", "customer_id"] =
      Except.ok v ∧
      metaName ["customer", "customer_id"] ∈ exampleFrame.cols ∧
      ∀ row ∈ exampleFrame.rows,
        alookup (metaName ["customer", "customer_id"])
          (exampleFrame.cols.zip row) = some (Cell.val v) :=
  flatten_meta_columns_constant flatten_exampleOrder_eval
    ["customer", "customer_id"] (by decide)

/-- Claim C4 fails as stated: the items of
`{"products": [{"a": 1}, {"b": 2}]}` have differing key sets, yet
`flatten` raises a `KeyError` for the missing meta field rather than
succeeding with the union of columns. -/
theorem flatten_union_counterexample :
    flatten [("products", JVal.arr [JVal.obj [("a", JVal.num 1)],
                                    JVal.obj [("b", JVal.num 2)]])] =
      Except.error (Err.metaKeyMissing "order_id") := rfl

/-- Claim C4 (amended): for every order whose items have differing key
sets, whose meta fields are all present and whose flattened item keys
avoid the meta column names, `flatten` succeeds with a single tabular
shape: the column set is exactly the union of the per-item (flattened)
keys plus the meta columns, and a row whose item lacks one of those
columns holds the `NaN` marker there rather than raising. -/
theorem flatten_column_union {order : JDict} {objs : List JDict}
    {ms : List (String × JVal)}
    (hrec : pullRecords order = Except.ok (objs.map JVal.obj))
    (hms : pullMetas order metaPaths = Except.ok ms)
    (hnc : ∀ m ∈ ms, m.1 ∉ frameCols (objs.map nested_to_record))
    (hdiff : ∃ e₁ ∈ objs, ∃ e₂ ∈ objs, e₁.map Prod.fst ≠ e₂.map Prod.fst) :
    ∃ fr, flatten order = Except.ok fr ∧
      (∀ c, c ∈ fr.cols ↔
        ((∃ e ∈ objs, c ∈ (nested_to_record e).map Prod.fst) ∨
          c ∈ metaPaths.map metaName)) ∧
      fr.rows = objs.map (fun e =>
        rowOf (frameCols (objs.map nested_to_record)) (nested_to_record e) ++
          ms.map (fun m => Cell.val m.2)) ∧
      (∀ e ∈ objs, ∀ c ∈ frameCols (objs.map nested_to_record),
        alookup c (nested_to_record e) = none →
        alookup c (fr.cols.zip
          (rowOf (frameCols (objs.map nested_to_record)) (nested_to_record e) ++
            ms.map (fun m => Cell.val m.2))) = some Cell.na) := by
  refine ⟨_, flatten_ok_struct hrec hms hnc, ?_, ?_, ?_⟩
  · intro c
    simp only [List.mem_append]
    constructor
    · rintro (hcC | hcN)
      · rcases mem_frameCols.mp hcC with ⟨r, hr, hcr⟩
        rcases List.mem_map.mp hr with ⟨e, he, hre⟩
        exact Or.inl ⟨e, he, hre ▸ hcr⟩
      · rw [pullMetas_ok_names hms] at hcN
        exact Or.inr hcN
    · rintro (⟨e, he, hce⟩ | hcN)
      · exact Or.inl (mem_frameCols.mpr ⟨nested_to_record e,
          List.mem_map_of_mem _ he, hce⟩)
      · rw [pullMetas_ok_names hms]
        exact Or.inr hcN
  · simp [List.map_map, Function.comp]
  · intro e he c hc hnone
    have hlen : (frameCols (objs.map nested_to_record)).length =
        (rowOf (frameCols (objs.map nested_to_record)) (nested_to_record e)).length := by
      rw [rowOf_length]
    rw [List.zip_append hlen]
    have hfirst : alookup c ((frameCols (objs.map nested_to_record)).zip
        (rowOf (frameCols (objs.map nested_to_record)) (nested_to_record e))) =
        some Cell.na := by
      have := alookup_zip_map_self
        (fun c' => match alookup c' (nested_to_record e) with
                   | some v => Cell.val v
                   | none => Cell.na) hc
      rw [rowOf, this]
      simp [hnone]
    exact alookup_append_left hfirst _

/-- Witness for C4 (amended): items `{"sku": "X"}` and `{"qty": 1}` with
differing key sets. -/
theorem flatten_column_union_witness :
    ∃ fr, flatten
      [("order_id", JVal.str "O1"), ("order_date", JVal.str "2024-01-01"),
       ("total_amount", JVal.num 19.98),
       ("customer", JVal.obj [("customer_id", JVal.str "C1"),
                              ("name", JVal.str "A"),
                              ("email", JVal.str "a@x.com"),
                              ("address", JVal.str "1 Rd")]),
       ("products", JVal.arr [JVal.obj [("sku", JVal.str "X")],
                              JVal.obj [("qty", JVal.num 1)]])] =
        Except.ok fr ∧
      (∀ c, c ∈ fr.cols ↔
        ((∃ e ∈ [[("sku", JVal.str "X")], [("qty", JVal.num 1)]],
            c ∈ (nested_to_record e).map Prod.fst) ∨
          c ∈ metaPaths.map metaName)) ∧
      fr.rows = [[("sku", JVal.str "X")], [("qty", JVal.num 1)]].map (fun e =>
        rowOf (frameCols ([[("sku", JVal.str "X")],
            [("qty", JVal.num 1)]].map nested_to_record)) (nested_to_record e) ++
          [("order_id", JVal.str "O1"), ("order_date", JVal.str "2024-01-01"),
           ("total_amount", JVal.num 19.98),
           ("customer.customer_id", JVal.str "C1"),
           ("customer.name", JVal.str "A"),
           ("customer.email", JVal.str "a@x.com"),
           ("customer.address", JVal.str "1 Rd")].map (fun m => Cell.val m.2)) ∧
      (∀ e ∈ [[("sku", JVal.str "X")], [("qty", JVal.num 1)]],
        ∀ c ∈ frameCols ([[("sku", JVal.str "X")],
            [("qty", JVal.num 1)]].map nested_to_record),
        alookup c (nested_to_record e) = none →
        alookup c (fr.cols.zip
          (rowOf (frameCols ([[("sku", JVal.str "X")],
              [("qty", JVal.num 1)]].map nested_to_record))
            (nested_to_record e) ++
            [("order_id", JVal.str "O1"), ("order_date", JVal.str "2024-01-01"),
             ("total_amount", JVal.num 19.98),
             ("customer.customer_id", JVal.str "C1"),
             ("customer.name", JVal.str "A"),
             ("customer.email", JVal.str "a@x.com"),
             ("customer.address", JVal.str "1 Rd")].map
              (fun m => Cell.val m.2))) = some Cell.na) :=
  @flatten_column_union
    [("order_id", JVal.str "O1"), ("order_date", JVal.str "2024-01-01"),
     ("total_amount", JVal.num 19.98),
     ("customer", JVal.obj [("customer_id", JVal.str "C1"),
                            ("name", JVal.str "A"),
                            ("email", JVal.str "a@x.com"),
                            ("address", JVal.str "1 Rd")]),
     ("products", JVal.arr [JVal.obj [("sku", JVal.str "X")],
                            JVal.obj [("qty", JVal.num 1)]])]
    [[("sku", JVal.str "X")], [("qty", JVal.num 1)]]
    [("order_id", JVal.str "O1"), ("order_date", JVal.str "2024-01-01"),
     ("total_amount", JVal.num 19.98),
     ("customer.customer_id", JVal.str "C1"),
     ("customer.name", JVal.str "A"),
     ("customer.email", JVal.str "a@x.com"),
     ("customer.address", JVal.str "1 Rd")]
    rfl rfl
    (by rw [map_nested_to_record_flat (by decide)]; decide)
    ⟨[("sku", JVal.str "X")], List.mem_cons_self _ _,
     [("qty", JVal.num 1)], List.mem_cons_of_mem _ (List.mem_cons_self _ _),
     by decide⟩

/-- Claim C10 fails as stated: an item whose `order_id` key holds a
nested mapping makes `nested_to_record` dissolve that key into
dot-prefixed columns (`order_id.x`), so no column-name conflict arises and
`flatten` succeeds rather than raising. -/
theorem flatten_meta_key_dict_value_counterexample :
    flatten
      [("order_id", JVal.str "O1"), ("order_date", JVal.str "2024-01-01"),
       ("total_amount", JVal.num 19.98),
       ("customer", JVal.obj [("customer_id", JVal.str "C1"),
                              ("name", JVal.str "A"),
                              ("email", JVal.str "a@x.com"),
                              ("address", JVal.str "1 Rd")]),
       ("products", JVal.arr [JVal.obj [("order_id",
          JVal.obj [("x", JVal.num 1)])]])] =
      Except.ok
        { cols := ["order_id.x", "order_id", "order_date", "total_amount",
                   "customer.customer_id", "customer.name",
                   "customer.email", "customer.address"]
          rows := [[Cell.val (JVal.num 1), Cell.val (JVal.str "O1"),
                    Cell.val (JVal.str "2024-01-01"),
                    Cell.val (JVal.num 19.98), Cell.val (JVal.str "C1"),
                    Cell.val (JVal.str "A"), Cell.val (JVal.str "a@x.com"),
                    Cell.val (JVal.str "1 Rd")]] } := by
  have hne : nested_to_record [("order_id", JVal.obj [("x", JVal.num 1)])] =
      [("order_id.x", JVal.num 1)] := by
    simp [nested_to_record, ntr, dictUpdate, popKey, setKey]
  have h := @flatten_ok_struct
    [("order_id", JVal.str "O1"), ("order_date", JVal.str "2024-01-01"),
     ("total_amount", JVal.num 19.98),
     ("customer", JVal.obj [("customer_id", JVal.str "C1"),
                            ("name", JVal.str "A"),
                            ("email", JVal.str "a@x.com"),
                            ("address", JVal.str "1 Rd")]),
     ("products", JVal.arr [JVal.obj [("order_id",
        JVal.obj [("x", JVal.num 1)])]])]
    [[("order_id", JVal.obj [("x", JVal.num 1)])]]
    [("order_id", JVal.str "O1"), ("order_date", JVal.str "2024-01-01"),
     ("total_amount", JVal.num 19.98),
     ("customer.customer_id", JVal.str "C1"),
     ("customer.name", JVal.str "A"),
     ("customer.email", JVal.str "a@x.com"),
     ("customer.address", JVal.str "1 Rd")]
    rfl rfl ?hnc
  case hnc =>
    simp only [List.map_cons, List.map_nil, hne]
    decide
  simp only [List.map_cons, List.map_nil, hne] at h
  exact h

/-- Claim C10 (amended): for every order whose `products` list contains an
item mapping that holds one of the order-level meta column names
(`order_id`, `order_date`, `total_amount`) as a key with a value that is
not itself a mapping, `flatten` raises an error (the column-name conflict,
or an earlier malformed-input error) instead of producing rows. -/
theorem flatten_item_meta_key_conflict {order : JDict} {recs : List JVal}
    {e : JDict} {v : JVal} {k : String}
    (hrec : pullRecords order = Except.ok recs)
    (hobj : JVal.obj e ∈ recs)
    (hnd : (e.map Prod.fst).Nodup)
    (hk : alookup k e = some v)
    (hv : isObj v = false)
    (hmeta : k ∈ ["order_id", "order_date", "total_amount"]) :
    ∃ err, flatten order = Except.error err := by
  cases hms : pullMetas order metaPaths with
  | error e' =>
    exact ⟨e', by simp [flatten, hrec, hms, Bind.bind, Except.bind]⟩
  | ok ms =>
    cases hfr : flatRecords recs with
    | error e' =>
      exact ⟨e', by simp [flatten, hrec, hms, hfr, Bind.bind, Except.bind]⟩
    | ok entries =>
      rcases flatRecords_ok_inv hfr with ⟨objs, hrecs, hent⟩
      subst hrecs
      subst hent
      have he : e ∈ objs := by
        rcases List.mem_map.mp hobj with ⟨e', he', heq⟩
        cases heq
        exact he'
      have hkey : k ∈ (nested_to_record e).map Prod.fst :=
        nested_to_record_keeps_key hk hv hnd
      have hcol : k ∈ frameCols (objs.map nested_to_record) :=
        mem_frameCols.mpr ⟨nested_to_record e, List.mem_map_of_mem _ he, hkey⟩
      have hkname : k ∈ ms.map Prod.fst := by
        rw [pullMetas_ok_names hms]
        show k ∈ metaPaths.map metaName
        have hval : metaPaths.map metaName =
            ["order_id", "order_date", "total_amount", "customer.customer_id",
             "customer.name", "customer.email", "customer.address"] := rfl
        rw [hval]
        simp only [List.mem_cons, List.not_mem_nil] at hmeta ⊢
        rcases hmeta with h | h | h | h
        · exact Or.inl h
        · exact Or.inr (Or.inl h)
        · exact Or.inr (Or.inr (Or.inl h))
        · exact absurd h (by simp)
      rcases List.mem_map.mp hkname with ⟨m, hm, hmk⟩
      have hmc : m.1 ∈ (frameOfRecords (objs.map nested_to_record)).cols := by
        simpa [frameOfRecords, hmk] using hcol
      rcases addMetaCols_error_of_mem hm hmc with ⟨k', hk'⟩
      exact ⟨Err.conflictingMeta k',
        by simp [flatten, hrec, hms, flatRecords_map_obj, hk',
          Bind.bind, Except.bind]⟩

/-- Witness for C10 (amended): an item `{"order_id": 5}` conflicts with
the order-level meta column. -/
theorem flatten_item_meta_key_conflict_witness :
    ∃ err, flatten
      [("order_id", JVal.str "O1"), ("order_date", JVal.str "2024-01-01"),
       ("total_amount", JVal.num 19.98),
       ("customer", JVal.obj [("customer_id", JVal.str "C1"),
                              ("name", JVal.str "A"),
                              ("email", JVal.str "a@x.com"),
                              ("address", JVal.str "1 Rd")]),
       ("products", JVal.arr [JVal.obj [("order_id", JVal.num 5)]])] =
      Except.error err :=
  @flatten_item_meta_key_conflict
    [("order_id", JVal.str "O1"), ("order_date", JVal.str "2024-01-01"),
     ("total_amount", JVal.num 19.98),
     ("customer", JVal.obj [("customer_id", JVal.str "C1"),
                            ("name", JVal.str "A"),
                            ("email", JVal.str "a@x.com"),
                            ("address", JVal.str "1 Rd")]),
     ("products", JVal.arr [JVal.obj [("order_id", JVal.num 5)]])]
    [JVal.obj [("order_id", JVal.num 5)]]
    [("order_id", JVal.num 5)] (JVal.num 5) "order_id"
    rfl (List.mem_cons_self _ _) (by decide) rfl rfl (by decide)
